/-
  Verification of the nfl-fantasy-market trading front end.

  The definitions below are a shallow embedding of the TypeScript sources:

  * `frontend/tests/e2e/helpers/market-trade-mock-api.ts` — the in-memory
    market state used by the end-to-end tests (`setupMarketTradeMockApi`
    with its closures `computePortfolio`, `syncAggregates`, `quotePayload`,
    `applyTrade`);
  * `frontend/app/market/page.tsx` — `isCostSide`, `parseWholeShares`,
    `MAX_POSITION_NOTIONAL_PER_PLAYER` and the `buyRemaining` /
    `shortRemaining` computation of `visibleRows`;
  * `frontend/app/player/[id]/page.tsx` — the share-quantity guard of the
    `buy` / `sell` handlers;
  * the Price Curve of the backend engine, which is not part of the
    repository sources, is modelled from the spec.

  JavaScript numbers are embedded as rationals (ℚ); the trading code only
  performs additions, subtractions, multiplications, divisions, `Math.abs`,
  `Math.max` and `Math.floor` on them.  A JavaScript `Map` keyed by player
  id is embedded as an association list with unique keys: `set` replaces
  the value in place when the key is present and appends otherwise,
  `delete` removes the key's entry, `get` returns the first value for the
  key.
-/
import Mathlib

namespace FantasyMarket

/-- The four trade sides (`TradeSide` in both `market-trade-mock-api.ts`
    and `market/page.tsx`). -/
inductive TradeSide where
  | buy
  | sell
  | short
  | cover
deriving DecidableEq, Repr

/-- `MarketPlayer` from `market-trade-mock-api.ts` (the `live: null` field
    carries no data and is omitted). -/
structure MarketPlayer where
  id : Nat
  sport : String
  name : String
  team : String
  position : String
  base_price : ℚ
  fundamental_price : ℚ
  points_to_date : ℚ
  latest_week : ℚ
  k : ℚ
  total_shares : ℚ
  shares_held : ℚ
  shares_short : ℚ
  spot_price : ℚ
deriving DecidableEq, Repr

/-- `Map.get` on an association list: first value stored under the key. -/
def mapGet (m : List (Nat × ℚ)) (key : Nat) : Option ℚ :=
  match m with
  | [] => none
  | e :: rest => if e.1 = key then some e.2 else mapGet rest key

/-- `Map.set`: replace in place when the key is present, append otherwise. -/
def mapSet (m : List (Nat × ℚ)) (key : Nat) (v : ℚ) : List (Nat × ℚ) :=
  match m with
  | [] => [(key, v)]
  | e :: rest => if e.1 = key then (key, v) :: rest else e :: mapSet rest key v

/-- `Map.delete`: drop every entry stored under the key. -/
def mapDelete (m : List (Nat × ℚ)) (key : Nat) : List (Nat × ℚ) :=
  m.filter (fun e => e.1 ≠ key)

/-- The mutable state captured by the closures of `setupMarketTradeMockApi`:
    the `players` array, the `holdings` map, the `cashBalance` variable and
    the constant `spotPrice` every quote and trade is priced at. -/
structure MockState where
  players : List MarketPlayer
  holdings : List (Nat × ℚ)
  cashBalance : ℚ
  spotPrice : ℚ
deriving DecidableEq, Repr

/-- `holdings.get(playerId) ?? 0`. -/
def holdingOf (s : MockState) (playerId : Nat) : ℚ :=
  (mapGet s.holdings playerId).getD 0

/-- `syncAggregates` from `market-trade-mock-api.ts`: republish every
    player's `shares_held`, `shares_short` and `total_shares` from the
    holdings map. -/
def syncAggregates (s : MockState) : MockState :=
  { s with
    players := s.players.map (fun player =>
      let shares := (mapGet s.holdings player.id).getD 0
      { player with
        shares_held := max 0 shares
        shares_short := max 0 (-shares)
        total_shares := shares }) }

/-- The quote payload returned for `POST /quote/{side}`
    (`quotePayload` in `market-trade-mock-api.ts`). -/
structure QuotePayload where
  player_id : Nat
  shares : ℚ
  spot_price_before : ℚ
  spot_price_after : ℚ
  average_price : ℚ
  total : ℚ
  side : TradeSide
deriving DecidableEq, Repr

/-- `quotePayload(side, shares)`; `playerId` and `spotPrice` are the
    closure constants of the setup. -/
def quotePayload (s : MockState) (playerId : Nat) (side : TradeSide)
    (shares : ℚ) : QuotePayload :=
  { player_id := playerId
    shares := shares
    spot_price_before := s.spotPrice
    spot_price_after := s.spotPrice
    average_price := s.spotPrice
    total := shares * s.spotPrice
    side := side }

/-- `applyTrade(side, shares, nextPlayerId)` from
    `market-trade-mock-api.ts`: update the holding and the cash balance by
    the side's polarity, prune the holding row when it returns to exactly
    zero, then resynchronise the player aggregates. -/
def applyTrade (s : MockState) (side : TradeSide) (shares : ℚ)
    (nextPlayerId : Nat) : MockState :=
  let existing := (mapGet s.holdings nextPlayerId).getD 0
  let notional := shares * s.spotPrice
  let updated : List (Nat × ℚ) × ℚ :=
    match side with
    | .buy => (mapSet s.holdings nextPlayerId (existing + shares), s.cashBalance - notional)
    | .sell => (mapSet s.holdings nextPlayerId (existing - shares), s.cashBalance + notional)
    | .short => (mapSet s.holdings nextPlayerId (existing - shares), s.cashBalance + notional)
    | .cover => (mapSet s.holdings nextPlayerId (existing + shares), s.cashBalance - notional)
  let pruned : List (Nat × ℚ) :=
    if (mapGet updated.1 nextPlayerId).getD 0 = 0 then
      mapDelete updated.1 nextPlayerId
    else
      updated.1
  syncAggregates { s with holdings := pruned, cashBalance := updated.2 }

/-- One row of the portfolio response
    (`computePortfolio` in `market-trade-mock-api.ts`). -/
structure HoldingRow where
  player_id : Nat
  shares_owned : ℚ
  spot_price : ℚ
  market_value : ℚ
  maintenance_margin_required : ℚ
deriving DecidableEq, Repr

/-- The portfolio response of `GET /portfolio`. -/
structure Portfolio where
  cash_balance : ℚ
  equity : ℚ
  net_exposure : ℚ
  gross_exposure : ℚ
  margin_used : ℚ
  available_buying_power : ℚ
  margin_call : Bool
  holdings : List HoldingRow
deriving DecidableEq, Repr

/-- `computePortfolio` from `market-trade-mock-api.ts`: drop zero-share
    holdings, mark each remaining one to the player's spot price, and sum
    net and gross exposure. -/
def computePortfolio (s : MockState) : Portfolio :=
  let holdingRows : List HoldingRow :=
    (s.holdings.filter (fun e => e.2 ≠ 0)).map (fun e =>
      let price :=
        match s.players.find? (fun row => row.id = e.1) with
        | some player => player.spot_price
        | none => s.spotPrice
      { player_id := e.1
        shares_owned := e.2
        spot_price := price
        market_value := e.2 * price
        maintenance_margin_required := 0 })
  let netExposure := holdingRows.foldl (fun sum row => sum + row.market_value) 0
  let grossExposure := holdingRows.foldl (fun sum row => sum + |row.market_value|) 0
  let equity := s.cashBalance + netExposure
  { cash_balance := s.cashBalance
    equity := equity
    net_exposure := netExposure
    gross_exposure := grossExposure
    margin_used := 0
    available_buying_power := equity
    margin_call := false
    holdings := holdingRows }

/-- The initial state built by `setupMarketTradeMockApi`: one MLB player
    priced flat at $300, `initialSharesOwned` shares already held (no
    holding row when zero), $100,000 cash, and a final `syncAggregates()`
    call. -/
def setupState (initialSharesOwned : ℚ) : MockState :=
  let player : MarketPlayer :=
    { id := 5001
      sport := "MLB"
      name := "Aaron Judge"
      team := "NYY"
      position := "OF"
      base_price := 280
      fundamental_price := 286
      points_to_date := 90
      latest_week := 12
      k := 1 / 400
      total_shares := initialSharesOwned
      shares_held := max initialSharesOwned 0
      shares_short := max (-initialSharesOwned) 0
      spot_price := 300 }
  let holdings : List (Nat × ℚ) :=
    if initialSharesOwned ≠ 0 then [(5001, initialSharesOwned)] else []
  syncAggregates
    { players := [player]
      holdings := holdings
      cashBalance := 100000
      spotPrice := 300 }

/-- `isCostSide` from `market/page.tsx`: BUY and COVER debit cash. -/
def isCostSide (side : TradeSide) : Bool :=
  side = TradeSide.buy ∨ side = TradeSide.cover

/-- `MAX_POSITION_NOTIONAL_PER_PLAYER` from `market/page.tsx`. -/
def MAX_POSITION_NOTIONAL_PER_PLAYER : ℚ := 10000

/-- The `buyRemaining` computation of `visibleRows` in `market/page.tsx`:
    `owned < 0 ? 0 : Math.max(0, Math.floor(maxOpenSharesAtSpot - Math.max(0, owned)))`
    with `maxOpenSharesAtSpot = MAX_POSITION_NOTIONAL_PER_PLAYER / Math.max(0.0001, spot)`. -/
def buyRemaining (owned spot : ℚ) : ℤ :=
  if owned < 0 then 0
  else max 0 ⌊MAX_POSITION_NOTIONAL_PER_PLAYER / max (1 / 10000) spot - max 0 owned⌋

/-- The `shortRemaining` computation of `visibleRows` in `market/page.tsx`. -/
def shortRemaining (owned spot : ℚ) : ℤ :=
  if 0 < owned then 0
  else max 0 ⌊MAX_POSITION_NOTIONAL_PER_PLAYER / max (1 / 10000) spot - max 0 |owned|⌋

/-- `value.trim`: drop leading and trailing whitespace.  The quantity
    strings of the trade forms are embedded as character lists. -/
def jsTrim (value : List Char) : List Char :=
  ((value.dropWhile Char.isWhitespace).reverse.dropWhile Char.isWhitespace).reverse

/-- `Number.parseInt(trimmed, 10)` on a digits-only string. -/
def parseDigits (l : List Char) : Nat :=
  l.foldl (fun acc c => 10 * acc + (c.toNat - 48)) 0

/-- `parseWholeShares` from `market/page.tsx`: trim, require the digits-only
    shape `^[0-9]+$`, parse base 10, and accept only a positive result. -/
def parseWholeShares (value : List Char) : Option Nat :=
  let trimmed := jsTrim value
  if !trimmed.isEmpty && trimmed.all (fun c => c.isDigit) then
    if 0 < parseDigits trimmed then some (parseDigits trimmed) else none
  else none

/-- The quantity guard of `buy` / `sell` in `player/[id]/page.tsx`:
    `if (!shares || shares <= 0) throw new Error("Enter shares > 0")` —
    the request is issued exactly when the parsed share count is
    positive, with no integrality requirement. -/
def playerPageGuardPasses (shares : ℚ) : Bool :=
  if shares = 0 ∨ shares ≤ 0 then false else true

/-- Modelled from the spec: the backend Price Curve is not part of the
    repository sources (only the front end is); per the spec,
    `spot_price(player) = max(MIN_SPOT_PRICE, base_price + k * f(total_shares, fundamental_price))`
    for a monotonic curve shape `f`. -/
def curveSpotPrice (MIN_SPOT_PRICE base_price k : ℚ) (f : ℚ → ℚ → ℚ)
    (total_shares fundamental_price : ℚ) : ℚ :=
  max MIN_SPOT_PRICE (base_price + k * f total_shares fundamental_price)

/-- A state whose published player aggregates agree with the holdings map,
    as `syncAggregates` establishes; every state the mock ever serves
    satisfies this. -/
def Synced (s : MockState) : Prop :=
  ∀ p ∈ s.players,
    p.total_shares = holdingOf s p.id ∧
    p.shares_held = max 0 (holdingOf s p.id) ∧
    p.shares_short = max 0 (-(holdingOf s p.id))

/-- The player record the mock publishes after BUY 5 from the fresh setup
    state: aggregates resynchronised to the 5-share holding. -/
def judgeAfterBuyFive : MarketPlayer :=
  { id := 5001
    sport := "MLB"
    name := "Aaron Judge"
    team := "NYY"
    position := "OF"
    base_price := 280
    fundamental_price := 286
    points_to_date := 90
    latest_week := 12
    k := 1 / 400
    total_shares := 5
    shares_held := 5
    shares_short := 0
    spot_price := 300 }

/-! ### Basic map lemmas -/

theorem mapGet_mapSet_self (m : List (Nat × ℚ)) (key : Nat) (v : ℚ) :
    mapGet (mapSet m key v) key = some v := by
  induction m with
  | nil => simp [mapSet, mapGet]
  | cons e rest ih =>
      by_cases h : e.1 = key
      · simp [mapSet, mapGet, h]
      · simp [mapSet, mapGet, h, ih]

theorem mapGet_mapSet_ne (m : List (Nat × ℚ)) (key other : Nat) (v : ℚ)
    (h : other ≠ key) : mapGet (mapSet m key v) other = mapGet m other := by
  induction m with
  | nil => simp [mapSet, mapGet, Ne.symm h]
  | cons e rest ih =>
      by_cases he : e.1 = key
      · simp [mapSet, mapGet, he, h, Ne.symm h]
      · simp [mapSet, mapGet, he, h, ih]

theorem mapGet_mapDelete_self (m : List (Nat × ℚ)) (key : Nat) :
    mapGet (mapDelete m key) key = none := by
  induction m with
  | nil => simp [mapDelete, mapGet]
  | cons e rest ih =>
      by_cases h : e.1 = key
      · simpa [mapDelete, h] using ih
      · simpa [mapDelete, mapGet, h] using ih

theorem mapGet_mapDelete_ne (m : List (Nat × ℚ)) (key other : Nat)
    (h : other ≠ key) : mapGet (mapDelete m key) other = mapGet m other := by
  induction m with
  | nil => simp [mapDelete, mapGet]
  | cons e rest ih =>
      by_cases he : e.1 = key
      · simpa [mapDelete, mapGet, he, Ne.symm h] using ih
      · by_cases ho : e.1 = other
        · simp [mapDelete, List.filter_cons, mapGet, he, ho, h]
        · simpa [mapDelete, List.filter_cons, mapGet, he, ho] using ih

theorem mem_mapSet (m : List (Nat × ℚ)) (key : Nat) (v : ℚ) (e : Nat × ℚ)
    (h : e ∈ mapSet m key v) : e = (key, v) ∨ e ∈ m := by
  induction m with
  | nil =>
      simp [mapSet] at h
      exact Or.inl h
  | cons hd rest ih =>
      by_cases hh : hd.1 = key
      · simp [mapSet, hh] at h
        rcases h with h | h
        · exact Or.inl h
        · exact Or.inr (List.mem_cons_of_mem _ h)
      · simp [mapSet, hh] at h
        rcases h with h | h
        · exact Or.inr (by simp [h])
        · rcases ih h with h2 | h2
          · exact Or.inl h2
          · exact Or.inr (List.mem_cons_of_mem _ h2)

theorem mem_mapDelete (m : List (Nat × ℚ)) (key : Nat) (e : Nat × ℚ)
    (h : e ∈ mapDelete m key) : e ∈ m ∧ e.1 ≠ key := by
  have := List.mem_filter.mp h
  refine ⟨this.1, ?_⟩
  simpa using this.2

/-! ### Structural lemmas about trade application -/

theorem cashBalance_syncAggregates (s : MockState) :
    (syncAggregates s).cashBalance = s.cashBalance := rfl

theorem holdings_syncAggregates (s : MockState) :
    (syncAggregates s).holdings = s.holdings := rfl

theorem spotPrice_applyTrade (s : MockState) (side : TradeSide) (n : ℚ)
    (pid : Nat) : (applyTrade s side n pid).spotPrice = s.spotPrice := by
  cases side <;> rfl

/-- Cash moves by exactly the notional, debited on cost sides and credited
    on proceeds sides. -/
theorem cashBalance_applyTrade (s : MockState) (side : TradeSide) (n : ℚ)
    (pid : Nat) :
    (applyTrade s side n pid).cashBalance =
      if isCostSide side then s.cashBalance - n * s.spotPrice
      else s.cashBalance + n * s.spotPrice := by
  cases side <;> rfl

/-- Reading back the traded key after the set-then-prune-zero sequence of
    `applyTrade` always returns the freshly written value. -/
theorem holdingOf_prune (m : List (Nat × ℚ)) (key : Nat) (v : ℚ) :
    (mapGet
        (if (mapGet (mapSet m key v) key).getD 0 = 0 then
          mapDelete (mapSet m key v) key
        else mapSet m key v)
        key).getD 0 = v := by
  rw [mapGet_mapSet_self]
  by_cases hv : v = 0
  · simp [hv, mapGet_mapDelete_self]
  · simp [hv, mapGet_mapSet_self]

/-- The set-then-prune-zero sequence leaves every other key unchanged. -/
theorem mapGet_prune_ne (m : List (Nat × ℚ)) (key other : Nat) (v : ℚ)
    (h : other ≠ key) :
    mapGet
        (if (mapGet (mapSet m key v) key).getD 0 = 0 then
          mapDelete (mapSet m key v) key
        else mapSet m key v)
        other = mapGet m other := by
  split
  · rw [mapGet_mapDelete_ne _ _ _ h, mapGet_mapSet_ne _ _ _ _ h]
  · rw [mapGet_mapSet_ne _ _ _ _ h]

/-- The traded player's holding moves by the side's signed share delta. -/
theorem holdingOf_applyTrade_self (s : MockState) (side : TradeSide) (n : ℚ)
    (pid : Nat) :
    holdingOf (applyTrade s side n pid) pid =
      if isCostSide side then holdingOf s pid + n else holdingOf s pid - n := by
  cases side <;>
    simp [applyTrade, holdingOf, syncAggregates, holdingOf_prune, isCostSide]

/-- Holdings of other players are untouched by a trade. -/
theorem holdingOf_applyTrade_ne (s : MockState) (side : TradeSide) (n : ℚ)
    (pid q : Nat) (h : q ≠ pid) :
    holdingOf (applyTrade s side n pid) q = holdingOf s q := by
  cases side <;>
    simp [applyTrade, holdingOf, syncAggregates, mapGet_prune_ne _ _ _ _ h]

theorem synced_syncAggregates (s : MockState) : Synced (syncAggregates s) := by
  intro p hp
  simp only [syncAggregates, List.mem_map] at hp
  obtain ⟨q, hq, rfl⟩ := hp
  exact ⟨rfl, rfl, rfl⟩

theorem synced_applyTrade (s : MockState) (side : TradeSide) (n : ℚ)
    (pid : Nat) : Synced (applyTrade s side n pid) := by
  cases side <;> exact synced_syncAggregates _

theorem synced_setupState (v : ℚ) : Synced (setupState v) :=
  synced_syncAggregates _

/-- The setup state starts the no-zero-row invariant: a holding row is
    created only for a nonzero initial position. -/
theorem setupState_no_zero (v : ℚ) :
    ∀ e ∈ (setupState v).holdings, e.2 ≠ 0 := by
  intro e he
  simp only [setupState, holdings_syncAggregates] at he
  by_cases hv : v = 0
  · simp [hv] at he
  · rw [if_pos hv] at he
    simp at he
    rw [he]
    exact hv

theorem mem_of_mapGet_eq_some (m : List (Nat × ℚ)) (key : Nat) (v : ℚ)
    (h : mapGet m key = some v) : (key, v) ∈ m := by
  induction m with
  | nil => simp [mapGet] at h
  | cons e rest ih =>
      by_cases he : e.1 = key
      · rw [mapGet, if_pos he] at h
        have hv : e.2 = v := Option.some.inj h
        have : e = (key, v) := by
          obtain ⟨e1, e2⟩ := e
          simp only at he hv
          rw [he, hv]
        simp [this]
      · rw [mapGet, if_neg he] at h
        exact List.mem_cons_of_mem _ (ih h)

/-- The set-then-prune-zero sequence of `applyTrade` never leaves a
    zero-share row behind, provided none existed before. -/
theorem prune_no_zero (m : List (Nat × ℚ)) (key : Nat) (v : ℚ)
    (hinv : ∀ e ∈ m, e.2 ≠ 0) :
    ∀ e ∈ (if (mapGet (mapSet m key v) key).getD 0 = 0 then
             mapDelete (mapSet m key v) key
           else mapSet m key v), e.2 ≠ 0 := by
  intro e he
  by_cases hv : v = 0
  · rw [if_pos (by simp [mapGet_mapSet_self, hv])] at he
    obtain ⟨hmem, hne⟩ := mem_mapDelete _ _ _ he
    rcases mem_mapSet _ _ _ _ hmem with h1 | h1
    · subst h1
      exact absurd rfl hne
    · exact hinv e h1
  · rw [if_neg (by simp [mapGet_mapSet_self, hv])] at he
    rcases mem_mapSet _ _ _ _ he with h1 | h1
    · subst h1
      exact hv
    · exact hinv e h1

/-- Portfolio enumeration filters zero-share holdings out unconditionally. -/
theorem computePortfolio_no_zero (s : MockState) :
    ∀ row ∈ (computePortfolio s).holdings, row.shares_owned ≠ 0 := by
  intro row hrow
  simp only [computePortfolio, List.mem_map, List.mem_filter] at hrow
  obtain ⟨e, ⟨hmem, hne⟩, rfl⟩ := hrow
  simpa using hne

theorem foldl_add_map_eq {α : Type} (f : α → ℚ) (l : List α) (a : ℚ) :
    l.foldl (fun sum x => sum + f x) a = a + (l.map f).sum := by
  induction l generalizing a with
  | nil => simp
  | cons x xs ih => simp [ih, add_assoc]

/-- The clamp-free core of the `buyRemaining` / `shortRemaining` formula:
    when the spot is at or above the $0.0001 clamp and the current same-side
    exposure `a` is within the cap, the floored remainder is the largest
    whole share count keeping the notional within the cap. -/
theorem remaining_core (spot a : ℚ) (hspot : 1 / 10000 ≤ spot) (ha : 0 ≤ a)
    (hcap : a * spot ≤ 10000) :
    (a + ((max 0 ⌊(10000 : ℚ) / max (1 / 10000) spot - max 0 a⌋ : ℤ) : ℚ))
        * spot ≤ 10000 ∧
    ∀ z : ℤ, (a + (z : ℚ)) * spot ≤ 10000 →
      z ≤ max 0 ⌊(10000 : ℚ) / max (1 / 10000) spot - max 0 a⌋ := by
  have hspot0 : (0 : ℚ) < spot := lt_of_lt_of_le (by norm_num) hspot
  rw [max_eq_right hspot, max_eq_right ha]
  have hfloor0 : 0 ≤ ⌊(10000 : ℚ) / spot - a⌋ := by
    apply Int.floor_nonneg.mpr
    have : a ≤ 10000 / spot := (le_div_iff₀ hspot0).mpr hcap
    linarith
  rw [max_eq_right hfloor0]
  constructor
  · have h1 : (⌊(10000 : ℚ) / spot - a⌋ : ℚ) ≤ 10000 / spot - a :=
      Int.floor_le _
    have h2 : a + (⌊(10000 : ℚ) / spot - a⌋ : ℚ) ≤ 10000 / spot := by linarith
    calc (a + (⌊(10000 : ℚ) / spot - a⌋ : ℚ)) * spot
        ≤ (10000 / spot) * spot := by
          exact mul_le_mul_of_nonneg_right h2 (le_of_lt hspot0)
      _ = 10000 := by field_simp
  · intro z hz
    apply Int.le_floor.mpr
    have : a + (z : ℚ) ≤ 10000 / spot := (le_div_iff₀ hspot0).mpr hz
    linarith

/-! ### The claims -/

/-- C1: starting from the e2e setup state — $100,000 cash, 0 shares of the
    player priced flat at $300 — quoting BUY 5 returns `total = $1,500.00`,
    and executing the trade leaves the cash balance at $98,500.00 and the
    holding for the player at exactly 5 shares. -/
theorem C1_buy_five_scenario :
    (setupState 0).cashBalance = 100000 ∧
    holdingOf (setupState 0) 5001 = 0 ∧
    (quotePayload (setupState 0) 5001 .buy 5).total = 1500 ∧
    (applyTrade (setupState 0) .buy 5 5001).cashBalance = 98500 ∧
    holdingOf (applyTrade (setupState 0) .buy 5 5001) 5001 = 5 := by
  refine ⟨?_, ?_, ?_, ?_, ?_⟩ <;>
    norm_num [quotePayload, applyTrade, setupState, syncAggregates, mapGet,
      mapSet, mapDelete, holdingOf]

/-- C2: for every trade with a positive share count, executing a cost side
    (BUY or COVER) debits cash by exactly the quoted `total = shares * price`
    and adds the share count to the holding, while a proceeds side (SELL or
    SHORT) credits cash by exactly `total` and subtracts the share count. -/
theorem C2_side_polarity (s : MockState) (side : TradeSide) (pid : Nat)
    (n : ℚ) (hpos : 0 < n) :
    (isCostSide side = true →
        (applyTrade s side n pid).cashBalance
            = s.cashBalance - (quotePayload s pid side n).total ∧
        holdingOf (applyTrade s side n pid) pid = holdingOf s pid + n) ∧
    (isCostSide side = false →
        (applyTrade s side n pid).cashBalance
            = s.cashBalance + (quotePayload s pid side n).total ∧
        holdingOf (applyTrade s side n pid) pid = holdingOf s pid - n) := by
  constructor <;> intro hside <;>
    exact ⟨by rw [cashBalance_applyTrade]; simp [hside, quotePayload],
      by rw [holdingOf_applyTrade_self]; simp [hside]⟩

theorem C2_side_polarity_witness :
    (0 : ℚ) < 1 ∧
    (applyTrade (setupState 0) .buy 1 5001).cashBalance
        = (setupState 0).cashBalance
            - (quotePayload (setupState 0) 5001 .buy 1).total :=
  ⟨by norm_num,
    ((C2_side_polarity (setupState 0) .buy 5001 1 (by norm_num)).1 rfl).1⟩

/-- C8: starting from the e2e setup state with a −7-share short, quoting
    COVER 2 returns `total = $600.00` on a cost side, and executing the
    trade decreases cash by exactly $600.00 and moves the holding from −7
    to −5 shares. -/
theorem C8_cover_two_scenario :
    holdingOf (setupState (-7)) 5001 = -7 ∧
    (quotePayload (setupState (-7)) 5001 .cover 2).total = 600 ∧
    isCostSide .cover = true ∧
    (applyTrade (setupState (-7)) .cover 2 5001).cashBalance
        = (setupState (-7)).cashBalance - 600 ∧
    holdingOf (applyTrade (setupState (-7)) .cover 2 5001) 5001 = -5 := by
  refine ⟨?_, ?_, rfl, ?_, ?_⟩ <;>
    norm_num [quotePayload, applyTrade, setupState, syncAggregates, mapGet,
      mapSet, mapDelete, holdingOf]

/-- C3: for every positive whole share count and every synchronised
    starting state, a BUY of `n` shares followed by a SELL of `n` shares on
    the same otherwise-untouched player restores the account's holding, the
    cash balance (the mock prices every fill flat at the closure spot), and
    the player's published `total_shares`. -/
theorem C3_buy_sell_round_trip (s : MockState) (pid : Nat) (n : ℕ)
    (hn : 0 < n) (hs : Synced s) :
    holdingOf (applyTrade (applyTrade s .buy (n : ℚ) pid) .sell (n : ℚ) pid) pid
        = holdingOf s pid ∧
    (applyTrade (applyTrade s .buy (n : ℚ) pid) .sell (n : ℚ) pid).cashBalance
        = s.cashBalance ∧
    (∀ p2 ∈ (applyTrade (applyTrade s .buy (n : ℚ) pid) .sell (n : ℚ) pid).players,
      ∀ p0 ∈ s.players, p2.id = pid → p0.id = pid →
        p2.total_shares = p0.total_shares) := by
  have hhold :
      holdingOf (applyTrade (applyTrade s .buy (n : ℚ) pid) .sell (n : ℚ) pid) pid
        = holdingOf s pid := by
    rw [holdingOf_applyTrade_self, holdingOf_applyTrade_self]
    simp [isCostSide]
  refine ⟨hhold, ?_, ?_⟩
  · rw [cashBalance_applyTrade, cashBalance_applyTrade, spotPrice_applyTrade]
    simp [isCostSide]
  · intro p2 hp2 p0 hp0 hid2 hid0
    have h2 := (synced_applyTrade (applyTrade s .buy (n : ℚ) pid) .sell (n : ℚ) pid
      p2 hp2).1
    have h0 := (hs p0 hp0).1
    rw [h2, h0, hid2, hid0, hhold]

theorem C3_buy_sell_round_trip_witness :
    0 < 5 ∧
    holdingOf (applyTrade (applyTrade (setupState 0) .buy ((5 : ℕ) : ℚ) 5001)
        .sell ((5 : ℕ) : ℚ) 5001) 5001 = holdingOf (setupState 0) 5001 ∧
    (applyTrade (applyTrade (setupState 0) .buy ((5 : ℕ) : ℚ) 5001)
        .sell ((5 : ℕ) : ℚ) 5001).cashBalance = (setupState 0).cashBalance :=
  ⟨by norm_num,
    (C3_buy_sell_round_trip (setupState 0) 5001 5 (by norm_num)
      (synced_setupState 0)).1,
    (C3_buy_sell_round_trip (setupState 0) 5001 5 (by norm_num)
      (synced_setupState 0)).2.1⟩

/-- C4 counterexample: at the positive spot price $0.00005 — below the
    $0.0001 clamp inside `maxOpenSharesAtSpot` — and a zero position, the
    market page offers `buyRemaining = 100,000,000` shares, yet buying
    100,000,000 more shares (200,000,000 in total) still keeps the notional
    at the current spot within the $10,000 cap, so the offered size is not
    the largest whole-share count satisfying the cap and one additional
    share does not exceed it. -/
theorem C4_counterexample :
    (0 : ℚ) < 1 / 20000 ∧
    buyRemaining 0 (1 / 20000) = 100000000 ∧
    ((0 : ℚ) + ((200000000 : ℤ) : ℚ)) * (1 / 20000)
        ≤ MAX_POSITION_NOTIONAL_PER_PLAYER ∧
    (100000000 : ℤ) < 200000000 := by
  refine ⟨by norm_num, ?_, by norm_num [MAX_POSITION_NOTIONAL_PER_PLAYER],
    by norm_num⟩
  have hmax : max ((1 : ℚ) / 10000) (1 / 20000) = 1 / 10000 :=
    max_eq_left (by norm_num)
  rw [buyRemaining, if_neg (by norm_num), hmax]
  norm_num [MAX_POSITION_NOTIONAL_PER_PLAYER]

/-- C4 amended: for every spot price at or above the $0.0001 clamp and a
    same-side position whose notional at the current spot is within the cap,
    `buyRemaining` (for a long position `owned ≥ 0`) and `shortRemaining`
    (against the magnitude of a short position `owned ≤ 0`) are the largest
    whole-share counts whose resulting notional at the *current* spot price
    stays within `MAX_POSITION_NOTIONAL_PER_PLAYER`; in particular a fill
    landing exactly on $10,000 is offered and any larger count is not. -/
theorem C4_remaining_is_largest (spot : ℚ) (hspot : 1 / 10000 ≤ spot) :
    (∀ owned : ℚ, 0 ≤ owned →
      owned * spot ≤ MAX_POSITION_NOTIONAL_PER_PLAYER →
        (owned + (buyRemaining owned spot : ℚ)) * spot
            ≤ MAX_POSITION_NOTIONAL_PER_PLAYER ∧
        ∀ z : ℤ, (owned + (z : ℚ)) * spot ≤ MAX_POSITION_NOTIONAL_PER_PLAYER →
          z ≤ buyRemaining owned spot) ∧
    (∀ owned : ℚ, owned ≤ 0 →
      |owned| * spot ≤ MAX_POSITION_NOTIONAL_PER_PLAYER →
        (|owned| + (shortRemaining owned spot : ℚ)) * spot
            ≤ MAX_POSITION_NOTIONAL_PER_PLAYER ∧
        ∀ z : ℤ, (|owned| + (z : ℚ)) * spot ≤ MAX_POSITION_NOTIONAL_PER_PLAYER →
          z ≤ shortRemaining owned spot) := by
  constructor
  · intro owned howned hcap
    have hbuy : buyRemaining owned spot
        = max 0 ⌊(10000 : ℚ) / max (1 / 10000) spot - max 0 owned⌋ := by
      rw [buyRemaining, if_neg (not_lt.mpr howned)]
      rfl
    rw [hbuy]
    exact remaining_core spot owned hspot howned hcap
  · intro owned howned hcap
    have hshort : shortRemaining owned spot
        = max 0 ⌊(10000 : ℚ) / max (1 / 10000) spot - max 0 |owned|⌋ := by
      rw [shortRemaining, if_neg (not_lt.mpr howned)]
      rfl
    rw [hshort]
    exact remaining_core spot |owned| hspot (abs_nonneg owned) hcap

theorem C4_remaining_is_largest_witness :
    ((0 : ℚ) + (buyRemaining 0 300 : ℚ)) * 300
        ≤ MAX_POSITION_NOTIONAL_PER_PLAYER :=
  (((C4_remaining_is_largest 300 (by norm_num)).1 0 le_rfl
    (by norm_num [MAX_POSITION_NOTIONAL_PER_PLAYER]))).1

/-- C5: starting from any state with no zero-share holding row, applying a
    trade leaves no zero-share row (a holding driven to exactly zero has its
    row deleted — an absent row is the zero position), and the portfolio
    enumeration never lists a zero-share holding. -/
theorem C5_no_zero_share_rows (s : MockState) (side : TradeSide) (n : ℚ)
    (pid : Nat) (hinv : ∀ e ∈ s.holdings, e.2 ≠ 0) :
    (∀ e ∈ (applyTrade s side n pid).holdings, e.2 ≠ 0) ∧
    (holdingOf (applyTrade s side n pid) pid = 0 →
        mapGet (applyTrade s side n pid).holdings pid = none) ∧
    (∀ row ∈ (computePortfolio (applyTrade s side n pid)).holdings,
        row.shares_owned ≠ 0) := by
  have hrows : ∀ e ∈ (applyTrade s side n pid).holdings, e.2 ≠ 0 := by
    cases side <;> exact prune_no_zero s.holdings pid _ hinv
  refine ⟨hrows, ?_, computePortfolio_no_zero _⟩
  intro h0
  rcases hget : mapGet (applyTrade s side n pid).holdings pid with _ | w
  · rfl
  · exfalso
    have hmem := mem_of_mapGet_eq_some _ _ _ hget
    apply hrows (pid, w) hmem
    have hw : holdingOf (applyTrade s side n pid) pid = w := by
      simp [holdingOf, hget]
    rw [← hw, h0]

theorem C5_no_zero_share_rows_witness : ((5001, (5 : ℚ)) : Nat × ℚ).2 ≠ 0 :=
  (C5_no_zero_share_rows (setupState 0) .buy 5 5001
      (by simp [setupState, syncAggregates])).1 (5001, 5)
    (by norm_num [applyTrade, setupState, syncAggregates, mapGet, mapSet,
      mapDelete, holdingOf])

/-- C6 counterexample: the submitted quantity `2.5` — a positive non-whole
    share count, parsed by `Number` to `5/2` — is rejected by the market
    page's `parseWholeShares`, but the player page's quantity guard passes
    it, so the trade request is issued; hence non-integer share counts are
    not always rejected before a request is issued. -/
theorem C6_counterexample :
    playerPageGuardPasses (5 / 2) = true ∧
    parseWholeShares ['2', '.', '5'] = none := by
  constructor
  · norm_num [playerPageGuardPasses]
  · decide

/-- C6 amended: the market page accepts a submitted quantity exactly when
    the trimmed input is a nonempty digits-only string whose base-10 value
    is positive (its parse is the accepted share count); the player page's
    `buy` / `sell` guard, however, enforces only positivity, so a positive
    non-integer quantity is not rejected there before the request is
    issued. -/
theorem C6_quantity_validation :
    (∀ value : List Char, ∀ n : Nat,
      parseWholeShares value = some n ↔
        ((jsTrim value).isEmpty = false ∧
         (jsTrim value).all (fun c => c.isDigit) = true ∧
         0 < n ∧ parseDigits (jsTrim value) = n)) ∧
    (∀ shares : ℚ, playerPageGuardPasses shares = true ↔ 0 < shares) := by
  constructor
  · intro value n
    constructor
    · intro h
      rw [parseWholeShares] at h
      split at h
      · next hcond =>
          obtain ⟨hne, hdig⟩ := Bool.and_eq_true_iff.mp hcond
          by_cases hpos : 0 < parseDigits (jsTrim value)
          · rw [if_pos hpos] at h
            obtain rfl := Option.some.inj h
            exact ⟨by simpa using hne, hdig, hpos, rfl⟩
          · rw [if_neg hpos] at h
            exact absurd h (by simp)
      · exact absurd h (by simp)
    · rintro ⟨hne, hdig, hpos, rfl⟩
      rw [parseWholeShares]
      rw [if_pos (by simp [hne, hdig])]
      simp [hpos]
  · intro shares
    constructor
    · intro h
      rw [playerPageGuardPasses] at h
      by_cases hc : shares = 0 ∨ shares ≤ 0
      · rw [if_pos hc] at h
        exact absurd h (by simp)
      · push_neg at hc
        exact hc.2
    · intro h
      rw [playerPageGuardPasses,
        if_neg (by push_neg; exact ⟨ne_of_gt h, h⟩)]

theorem C6_quantity_validation_witness :
    parseWholeShares ['4', '2'] = some 42 ∧
    playerPageGuardPasses 3 = true :=
  ⟨(C6_quantity_validation.1 ['4', '2'] 42).mpr (by decide),
    (C6_quantity_validation.2 3).mpr (by norm_num)⟩

/-- C7: for every state, the reported portfolio marks every holding row at
    `market_value = shares_owned * spot_price`, sums the signed market
    values to `net_exposure` and their absolute values to `gross_exposure`,
    and reports `equity = cash_balance + net_exposure`. -/
theorem C7_portfolio_aggregation (s : MockState) :
    (∀ row ∈ (computePortfolio s).holdings,
        row.market_value = row.shares_owned * row.spot_price) ∧
    (computePortfolio s).net_exposure
        = ((computePortfolio s).holdings.map HoldingRow.market_value).sum ∧
    (computePortfolio s).gross_exposure
        = ((computePortfolio s).holdings.map (fun row => |row.market_value|)).sum ∧
    (computePortfolio s).equity
        = (computePortfolio s).cash_balance + (computePortfolio s).net_exposure := by
  refine ⟨?_, ?_, ?_, rfl⟩
  · intro row hrow
    simp only [computePortfolio, List.mem_map] at hrow
    obtain ⟨e, he, rfl⟩ := hrow
    rfl
  · simp only [computePortfolio]
    rw [foldl_add_map_eq, zero_add]
  · simp only [computePortfolio]
    rw [foldl_add_map_eq, zero_add]

theorem C7_portfolio_aggregation_witness :
    (computePortfolio (setupState 0)).equity
        = (computePortfolio (setupState 0)).cash_balance
            + (computePortfolio (setupState 0)).net_exposure :=
  (C7_portfolio_aggregation (setupState 0)).2.2.2

/-- C9: (the Price Curve is modelled from the spec, the backend being
    outside the repository sources) the derived spot price never falls below
    `MIN_SPOT_PRICE`, for every curve shape `f` and every player state,
    including arbitrarily large negative `total_shares`. -/
theorem C9_spot_price_floor (MIN_SPOT_PRICE base_price k : ℚ)
    (f : ℚ → ℚ → ℚ) (total_shares fundamental_price : ℚ) :
    MIN_SPOT_PRICE ≤
      curveSpotPrice MIN_SPOT_PRICE base_price k f total_shares
        fundamental_price :=
  le_max_left _ _

/-- C10: after every trade application, each player's published aggregates
    decompose its signed holding consistently: `total_shares` equals the
    holding, `shares_held = max 0 total_shares`,
    `shares_short = max 0 (−total_shares)`; hence
    `shares_held − shares_short = total_shares` and the two are never both
    nonzero. -/
theorem C10_aggregates_consistent (s : MockState) (side : TradeSide) (n : ℚ)
    (pid : Nat) :
    ∀ p ∈ (applyTrade s side n pid).players,
      p.total_shares = holdingOf (applyTrade s side n pid) p.id ∧
      p.shares_held = max 0 p.total_shares ∧
      p.shares_short = max 0 (-p.total_shares) ∧
      p.shares_held - p.shares_short = p.total_shares ∧
      ¬(p.shares_held ≠ 0 ∧ p.shares_short ≠ 0) := by
  intro p hp
  obtain ⟨h1, h2, h3⟩ := synced_applyTrade s side n pid p hp
  have hheld : p.shares_held = max 0 p.total_shares := by rw [h2, h1]
  have hshort : p.shares_short = max 0 (-p.total_shares) := by rw [h3, h1]
  refine ⟨h1, hheld, hshort, ?_, ?_⟩
  · rw [hheld, hshort]
    rcases le_total 0 p.total_shares with ht | ht
    · rw [max_eq_right ht, max_eq_left (neg_nonpos.mpr ht), sub_zero]
    · rw [max_eq_left ht, max_eq_right (neg_nonneg.mpr ht), zero_sub, neg_neg]
  · rintro ⟨hh, hs⟩
    rcases le_total 0 p.total_shares with ht | ht
    · exact hs (by rw [hshort, max_eq_left (neg_nonpos.mpr ht)])
    · exact hh (by rw [hheld, max_eq_left ht])

theorem C10_aggregates_consistent_witness :
    judgeAfterBuyFive.shares_held - judgeAfterBuyFive.shares_short
        = judgeAfterBuyFive.total_shares :=
  (C10_aggregates_consistent (setupState 0) .buy 5 5001 judgeAfterBuyFive
      (by norm_num [applyTrade, setupState, syncAggregates, mapGet, mapSet,
        mapDelete, judgeAfterBuyFive])).2.2.2.1

end FantasyMarket
